import Mathlib

/- Verification of the beggar-my-neighbour simulator (src/main.rs).

The program is a two-player card game: a main turn loop (main, lines 292-322)
pops cards from the current player's deck onto a shared central pile; a card
with a penalty value hands control to the penalty engine
(process_penalty_phase, lines 213-259), which demands payment cards from the
opposing player, flipping roles on escalation, until the pile is collected by
the last penalty initiator or a required player's deck is empty (that player
loses the whole game).

The embedding below is a small-step state machine.  One step moves at most one
card, exactly as one iteration of the corresponding Rust loop body does:
  * Mode.turn     — at the top of the main loop (line 292), about to test the
                    current player's deck and play a card;
  * Mode.penalty payer required lastInit paid
                  — inside process_penalty_phase, about to run one iteration
                    of the payment cycle (lines 228-249) with the engine's
                    local variables as arguments;
  * Mode.check    — at the end-of-iteration deck-emptiness test of the main
                    loop (lines 315-321);
  * Mode.over w   — the loop has broken with winner w.
-/

namespace BMN

/-- Rank enum, src/main.rs lines 10-25. -/
inductive Rank where
  | two | three | four | five | six | seven | eight | nine | ten
  | jack | queen | king | ace
deriving DecidableEq

/-- Penalty mapping, src/main.rs lines 28-36 (Rank::penalty_value).
Jack 1, Queen 2, King 3, Ace 4, otherwise none. -/
def Rank.penalty_value : Rank → Option Nat
  | .jack => some 1
  | .queen => some 2
  | .king => some 3
  | .ace => some 4
  | _ => none

/-- Suit enum, src/main.rs lines 63-69.  Display-only in the game rules. -/
inductive Suit where
  | spade | heart | club | diamond
deriving DecidableEq

/-- Card struct, src/main.rs lines 86-90. -/
structure Card where
  rank : Rank
  suit : Suit
deriving DecidableEq

/-- Player enum, src/main.rs lines 98-102.  Player::One is deck index 0,
Player::Two is deck index 1. -/
inductive Player where
  | one | two
deriving DecidableEq

/-- Player::other, src/main.rs lines 105-110. -/
def Player.other : Player → Player
  | .one => .two
  | .two => .one

/-- create_deck, src/main.rs lines 186-211: for each suit (Spade, Heart,
Club, Diamond) push the thirteen ranks Two..Ace, giving the 52 standard
cards in suit-major order. -/
def create_deck : List Card :=
  let ranks : List Rank :=
    [.two, .three, .four, .five, .six, .seven, .eight, .nine, .ten,
     .jack, .queen, .king, .ace]
  let suits : List Suit := [.spade, .heart, .club, .diamond]
  suits.flatMap (fun s => ranks.map (fun r => ⟨r, s⟩))

/-- Control position of the simulation; see the header comment for the
correspondence with the Rust loops. -/
inductive Mode where
  | turn
  | penalty (payer : Player) (required : Nat) (lastInit : Player) (paid : Nat)
  | check
  | over (winner : Player)
deriving DecidableEq

/-- The mutable state of main: current_player, turn_count, central_pile and
the two decks (decks[0] for Player One, decks[1] for Player Two), plus the
control position.  Decks are FIFO: the list head is the VecDeque front
(pop_front), appending on the right is push-back / extend. -/
structure GameState where
  mode : Mode
  current : Player
  turnCount : Nat
  pile : List Card
  deck1 : List Card
  deck2 : List Card
deriving DecidableEq

/-- decks[player as usize] as an rvalue. -/
def GameState.deck (s : GameState) : Player → List Card
  | .one => s.deck1
  | .two => s.deck2

/-- decks[player as usize] as an lvalue: replace one player's deck. -/
def GameState.setDeck (s : GameState) : Player → List Card → GameState
  | .one, d => { s with deck1 := d }
  | .two, d => { s with deck2 := d }

/-- One small step of the simulation.  Each branch transcribes the
corresponding lines of src/main.rs:
  * Mode.turn: lines 293-313 — if the current player's deck is empty, break
    with the opponent as winner (295-297); otherwise pop_front the card, push
    it on the pile (299-300); if it has a penalty value enter the engine with
    initiator = current_player (304-306), else switch player and increment
    turn_count (310-312) and fall through to the end check;
  * Mode.penalty: one iteration of the payment cycle, lines 228-251 — while
    paid < required: empty deck of the payer ends the game for the opponent
    (231-233); otherwise pop_front, push on pile (235-236); an escalating
    card makes the payer the new initiator, flips roles and resets paid
    (241-248); otherwise paid is incremented.  When paid == required the
    whole pile is drained onto the back of the last initiator's deck and
    control returns to the main loop's end check (251-256).  Should the
    while-condition fail with paid different from required, the outer loop
    restarts the cycle with paid = 0 (225-226);
  * Mode.check: lines 315-321 — if either deck is empty the game ends, Player
    Two winning when decks[0] is empty (also when both are), else the next
    turn begins;
  * Mode.over: the game has ended; the state is final. -/
def step (s : GameState) : GameState :=
  match s.mode with
  | .over _ => s
  | .turn =>
    match s.deck s.current with
    | [] => { s with mode := .over s.current.other }
    | c :: rest =>
      let s1 := s.setDeck s.current rest
      let s2 := { s1 with pile := s1.pile ++ [c] }
      match c.rank.penalty_value with
      | some m => { s2 with mode := .penalty s.current.other m s.current 0 }
      | none =>
        { s2 with mode := .check, current := s.current.other,
                  turnCount := s.turnCount + 1 }
  | .check =>
    if s.deck1.isEmpty || s.deck2.isEmpty then
      { s with mode := .over (if s.deck1.isEmpty then .two else .one) }
    else
      { s with mode := .turn }
  | .penalty payer req init paid =>
    if paid < req then
      match s.deck payer with
      | [] => { s with mode := .over payer.other }
      | c :: rest =>
        let s1 := s.setDeck payer rest
        let s2 := { s1 with pile := s1.pile ++ [c] }
        match c.rank.penalty_value with
        | some m => { s2 with mode := .penalty payer.other m payer 0 }
        | none => { s2 with mode := .penalty payer req init (paid + 1) }
    else if paid = req then
      let s1 := s.setDeck init (s.deck init ++ s.pile)
      { s1 with pile := [], mode := .check }
    else
      { s with mode := .penalty payer req init 0 }

/-- VecDeque::pop_front returns an Option; the Rust code calls .unwrap() on
it (lines 235 and 299). -/
def popFront : List Card → Option (Card × List Card)
  | [] => none
  | c :: rest => some (c, rest)

/-- The same step function, but with the two pop_front().unwrap() sites
modelled faithfully: the is_empty guard is tested first exactly as in the
source, then pop_front yields an Option and the unwrap's panic branch is the
none result.  stepOpt s = none would mean a panic. -/
def stepOpt (s : GameState) : Option GameState :=
  match s.mode with
  | .over _ => some s
  | .turn =>
    if (s.deck s.current).isEmpty then
      some { s with mode := .over s.current.other }
    else
      match popFront (s.deck s.current) with
      | none => none
      | some (c, rest) =>
        let s1 := s.setDeck s.current rest
        let s2 := { s1 with pile := s1.pile ++ [c] }
        match c.rank.penalty_value with
        | some m => some { s2 with mode := .penalty s.current.other m s.current 0 }
        | none =>
          some { s2 with mode := .check, current := s.current.other,
                         turnCount := s.turnCount + 1 }
  | .check =>
    if s.deck1.isEmpty || s.deck2.isEmpty then
      some { s with mode := .over (if s.deck1.isEmpty then .two else .one) }
    else
      some { s with mode := .turn }
  | .penalty payer req init paid =>
    if paid < req then
      if (s.deck payer).isEmpty then
        some { s with mode := .over payer.other }
      else
        match popFront (s.deck payer) with
        | none => none
        | some (c, rest) =>
          let s1 := s.setDeck payer rest
          let s2 := { s1 with pile := s1.pile ++ [c] }
          match c.rank.penalty_value with
          | some m => some { s2 with mode := .penalty payer.other m payer 0 }
          | none => some { s2 with mode := .penalty payer req init (paid + 1) }
    else if paid = req then
      let s1 := s.setDeck init (s.deck init ++ s.pile)
      some { s1 with pile := [], mode := .check }
    else
      some { s with mode := .penalty payer req init 0 }

/-- The initial state of main, lines 272-285: the shuffled deck is split at
len/2, the first half is Player One's deck, the second half Player Two's;
turn_count = 0, current_player = One, central_pile empty. -/
def initState (shuffled : List Card) : GameState :=
  { mode := .turn, current := .one, turnCount := 0, pile := [],
    deck1 := shuffled.take (shuffled.length / 2),
    deck2 := shuffled.drop (shuffled.length / 2) }

/-- A state arising at some point of the run starting from init. -/
def Reachable (init s : GameState) : Prop := ∃ n : Nat, step^[n] init = s

/-- The multiset of all cards in play: both decks and the pile. -/
def cards (s : GameState) : Multiset Card :=
  (s.deck1 : Multiset Card) + (s.deck2 : Multiset Card) + (s.pile : Multiset Card)

/-- Recognise a state inside the penalty engine. -/
def Mode.isPenalty : Mode → Bool
  | .penalty _ _ _ _ => true
  | _ => false

/-- A concrete mid-payment state: Player One owes two cards to initiator
Player Two, the top of One's deck is a Jack. -/
def sEsc : GameState :=
  { mode := .penalty .one 2 .two 0, current := .two, turnCount := 5,
    pile := [⟨.queen, .spade⟩],
    deck1 := [⟨.jack, .heart⟩, ⟨.two, .heart⟩],
    deck2 := [⟨.four, .heart⟩] }

/-- A concrete mid-payment state in which the payer (Player One) has an
empty deck. -/
def sDep : GameState :=
  { mode := .penalty .one 3 .two 1, current := .two, turnCount := 7,
    pile := [⟨.king, .spade⟩, ⟨.six, .club⟩],
    deck1 := [],
    deck2 := [⟨.four, .heart⟩, ⟨.nine, .diamond⟩] }

/-- A concrete state at the moment a payment has just been completed:
paid = required = 1, so the next step collects the pile for the initiator
(Player Two). -/
def sDrain : GameState :=
  { mode := .penalty .one 1 .two 1, current := .two, turnCount := 3,
    pile := [⟨.jack, .club⟩, ⟨.five, .club⟩],
    deck1 := [⟨.ten, .heart⟩],
    deck2 := [⟨.seven, .spade⟩] }

/-- A concrete engine-entry state: Player One must pay two cards to
initiator Player Two, and the top two cards of One's deck carry no
penalty. -/
def sCol : GameState :=
  { mode := .penalty .one 2 .two 0, current := .two, turnCount := 4,
    pile := [⟨.ace, .spade⟩],
    deck1 := [⟨.two, .heart⟩, ⟨.three, .heart⟩, ⟨.four, .heart⟩],
    deck2 := [⟨.five, .heart⟩] }

/-- An initial arrangement of the 52 cards chosen so that the first three
plays are: Player One plays the Two of Spades (no penalty), Player Two plays
the Jack of Spades (penalty 1), Player One pays the Three of Spades.  The
remaining 49 cards keep their create_deck order. -/
def shuffleC6 : List Card :=
  let special : List Card := [⟨.two, .spade⟩, ⟨.three, .spade⟩, ⟨.jack, .spade⟩]
  let rest := create_deck.filter (fun c => decide (c ∉ special))
  [⟨.two, .spade⟩, ⟨.three, .spade⟩] ++ rest.take 24 ++ [⟨.jack, .spade⟩] ++ rest.drop 24

/-- The inductive invariant behind the deck-exhaustion analysis: at the top
of the main loop both decks are non-empty, at the end-of-iteration check at
least one deck is non-empty, and during a penalty phase the pile is
non-empty. -/
def Inv (s : GameState) : Prop :=
  (s.mode = .turn → s.deck1 ≠ [] ∧ s.deck2 ≠ []) ∧
  (s.mode = .check → s.deck1 ≠ [] ∨ s.deck2 ≠ []) ∧
  (∀ payer req init paid, s.mode = .penalty payer req init paid → s.pile ≠ [])

/-! Helper lemmas. -/

theorem deck_setDeck_self (s : GameState) (p : Player) (d : List Card) :
    (s.setDeck p d).deck p = d := by
  cases p <;> rfl

theorem deck_setDeck_ne (s : GameState) (p q : Player) (d : List Card) (h : q ≠ p) :
    (s.setDeck p d).deck q = s.deck q := by
  cases p <;> cases q <;> first | rfl | exact absurd rfl h

theorem deck_update_pm (s : GameState) (P : List Card) (M : Mode) (q : Player) :
    ({ s with pile := P, mode := M } : GameState).deck q = s.deck q := by
  cases q <;> rfl

/-- Characterisation of the payment-cycle step when the payer's deck is
empty: the game ends at once with the opponent as winner and no card moves
(src/main.rs lines 231-233). -/
theorem step_deplete (s : GameState) (payer init : Player) (req paid : Nat)
    (hm : s.mode = .penalty payer req init paid) (hlt : paid < req)
    (hd : s.deck payer = []) :
    step s = { s with mode := .over payer.other } := by
  obtain ⟨m, cur, tc, pile, d1, d2⟩ := s
  subst hm
  cases payer <;>
  · simp only [GameState.deck] at hd
    subst hd
    simp [step, GameState.deck, hlt]

/-- Characterisation of the payment-cycle step when the payer plays a
non-penalty card: the card moves from the deck front to the pile back and
paid is incremented (src/main.rs lines 235-239, 249). -/
theorem step_pay (s : GameState) (payer init : Player) (req paid : Nat)
    (c : Card) (rest : List Card)
    (hm : s.mode = .penalty payer req init paid) (hlt : paid < req)
    (hd : s.deck payer = c :: rest)
    (hp : c.rank.penalty_value = none) :
    step s = { s.setDeck payer rest with
               pile := s.pile ++ [c],
               mode := .penalty payer req init (paid + 1) } := by
  obtain ⟨m, cur, tc, pile, d1, d2⟩ := s
  subst hm
  cases payer <;>
  · simp only [GameState.deck] at hd
    subst hd
    simp [step, GameState.deck, GameState.setDeck, hlt, hp]

/-- Characterisation of the payment-cycle step when the payer plays a card
with penalty value mq: the payer becomes the new initiator, the opponent the
new payer, required becomes mq and paid resets to 0
(src/main.rs lines 241-248). -/
theorem step_escalate (s : GameState) (payer init : Player) (req paid : Nat)
    (c : Card) (rest : List Card) (mq : Nat)
    (hm : s.mode = .penalty payer req init paid) (hlt : paid < req)
    (hd : s.deck payer = c :: rest)
    (hp : c.rank.penalty_value = some mq) :
    step s = { s.setDeck payer rest with
               pile := s.pile ++ [c],
               mode := .penalty payer.other mq payer 0 } := by
  obtain ⟨m, cur, tc, pile, d1, d2⟩ := s
  subst hm
  cases payer <;>
  · simp only [GameState.deck] at hd
    subst hd
    simp [step, GameState.deck, GameState.setDeck, hlt, hp]

/-- Characterisation of the step at which payment is complete: the whole
pile is drained onto the back of the last initiator's deck and control
returns to the main loop's end check (src/main.rs lines 251-256). -/
theorem step_collect (s : GameState) (payer init : Player) (req : Nat)
    (hm : s.mode = .penalty payer req init req) :
    step s = { s.setDeck init (s.deck init ++ s.pile) with
               pile := [],
               mode := .check } := by
  obtain ⟨m, cur, tc, pile, d1, d2⟩ := s
  subst hm
  cases init <;>
    simp [step, GameState.deck, GameState.setDeck, Nat.lt_irrefl]

theorem perm_play (c : Card) (a b p : List Card) :
    (a ++ (b ++ (p ++ [c]))).Perm (c :: (a ++ (b ++ p))) := by
  have h1 : (p ++ [c]).Perm (c :: p) := List.perm_append_singleton c p
  exact (((h1.append_left b).trans List.perm_middle).append_left a).trans List.perm_middle

theorem perm_play2 (c : Card) (a b p : List Card) :
    (a ++ (b ++ (p ++ [c]))).Perm (a ++ c :: (b ++ p)) := by
  have h1 : (p ++ [c]).Perm (c :: p) := List.perm_append_singleton c p
  exact ((h1.append_left b).trans List.perm_middle).append_left a

theorem perm_collect (a b p : List Card) :
    (a ++ (p ++ b)).Perm (a ++ (b ++ p)) :=
  List.perm_append_comm.append_left a

theorem setDeck_current (s : GameState) (p : Player) (d : List Card) :
    (s.setDeck p d).current = s.current := by
  cases p <;> rfl

theorem setDeck_turnCount (s : GameState) (p : Player) (d : List Card) :
    (s.setDeck p d).turnCount = s.turnCount := by
  cases p <;> rfl

theorem setDeck_pile (s : GameState) (p : Player) (d : List Card) :
    (s.setDeck p d).pile = s.pile := by
  cases p <;> rfl

/-- Characterisation of an ordinary-turn step that plays a card with a
penalty value: the card moves to the pile and control enters the penalty
engine with initiator = current_player (src/main.rs lines 299-306). -/
theorem step_trigger (s : GameState) (c : Card) (rest : List Card) (mq : Nat)
    (hm : s.mode = .turn) (hd : s.deck s.current = c :: rest)
    (hp : c.rank.penalty_value = some mq) :
    step s = { s.setDeck s.current rest with
               pile := s.pile ++ [c],
               mode := .penalty s.current.other mq s.current 0 } := by
  obtain ⟨m, cur, tc, pile, d1, d2⟩ := s
  subst hm
  cases cur <;>
  · simp only [GameState.deck] at hd
    subst hd
    simp [step, GameState.deck, GameState.setDeck, hp]

/-- Characterisation of an ordinary-turn step that plays a non-penalty card:
the card moves to the pile, the players switch, turn_count is incremented
and control falls through to the end check (src/main.rs lines 299-302,
310-313). -/
theorem step_ordinary (s : GameState) (c : Card) (rest : List Card)
    (hm : s.mode = .turn) (hd : s.deck s.current = c :: rest)
    (hp : c.rank.penalty_value = none) :
    step s = { s.setDeck s.current rest with
               pile := s.pile ++ [c],
               mode := .check, current := s.current.other,
               turnCount := s.turnCount + 1 } := by
  obtain ⟨m, cur, tc, pile, d1, d2⟩ := s
  subst hm
  cases cur <;>
  · simp only [GameState.deck] at hd
    subst hd
    simp [step, GameState.deck, GameState.setDeck, hp]

/-- A step taken inside the penalty engine never touches current_player or
turn_count of the main loop. -/
theorem step_frame_penalty (s : GameState) (h : s.mode.isPenalty = true) :
    (step s).current = s.current ∧ (step s).turnCount = s.turnCount := by
  obtain ⟨m, cur, tc, pile, d1, d2⟩ := s
  cases m with
  | turn => simp [Mode.isPenalty] at h
  | check => simp [Mode.isPenalty] at h
  | over w => simp [Mode.isPenalty] at h
  | penalty payer req init paid =>
      by_cases hlt : paid < req
      · cases payer with
        | one =>
            cases d1 with
            | nil => simp [step, GameState.deck, hlt]
            | cons c rest =>
                cases hp : c.rank.penalty_value <;>
                  simp [step, GameState.deck, GameState.setDeck, hlt, hp]
        | two =>
            cases d2 with
            | nil => simp [step, GameState.deck, hlt]
            | cons c rest =>
                cases hp : c.rank.penalty_value <;>
                  simp [step, GameState.deck, GameState.setDeck, hlt, hp]
      · by_cases heq : paid = req
        · cases init <;> simp [step, GameState.deck, GameState.setDeck, hlt, heq]
        · simp [step, hlt, heq]

/-- Every step of the simulation preserves the multiset of cards held by the
two decks and the pile: a step either moves the head of one deck to the back
of the pile, moves the whole pile to the back of one deck, or moves nothing. -/
theorem cards_step (s : GameState) : cards (step s) = cards s := by
  obtain ⟨m, cur, tc, pile, d1, d2⟩ := s
  cases m with
  | over w => rfl
  | check =>
      simp only [step]
      split <;> rfl
  | turn =>
      cases cur with
      | one =>
          cases d1 with
          | nil => rfl
          | cons c rest =>
              cases hp : c.rank.penalty_value <;>
              · simp [step, cards, GameState.deck, GameState.setDeck, hp]
                exact perm_play c rest d2 pile
      | two =>
          cases d2 with
          | nil => rfl
          | cons c rest =>
              cases hp : c.rank.penalty_value <;>
              · simp [step, cards, GameState.deck, GameState.setDeck, hp]
                exact perm_play2 c d1 rest pile
  | penalty payer req init paid =>
      by_cases hlt : paid < req
      · cases payer with
        | one =>
            cases d1 with
            | nil => simp [step, cards, GameState.deck, hlt]
            | cons c rest =>
                cases hp : c.rank.penalty_value <;>
                · simp [step, cards, GameState.deck, GameState.setDeck, hlt, hp]
                  exact perm_play c rest d2 pile
        | two =>
            cases d2 with
            | nil => simp [step, cards, GameState.deck, hlt]
            | cons c rest =>
                cases hp : c.rank.penalty_value <;>
                · simp [step, cards, GameState.deck, GameState.setDeck, hlt, hp]
                  exact perm_play2 c d1 rest pile
      · by_cases heq : paid = req
        · cases init with
          | one =>
              simp [step, cards, GameState.deck, GameState.setDeck, hlt, heq]
              exact perm_collect d1 d2 pile
          | two =>
              simp [step, cards, GameState.deck, GameState.setDeck, hlt, heq]
        · simp [step, cards, hlt, heq]

/-- Introduction rule for Inv. -/
theorem inv_intro (s : GameState)
    (h1 : s.mode = .turn → s.deck1 ≠ [] ∧ s.deck2 ≠ [])
    (h2 : s.mode = .check → s.deck1 ≠ [] ∨ s.deck2 ≠ [])
    (h3 : ∀ payer req init paid, s.mode = .penalty payer req init paid → s.pile ≠ []) :
    Inv s :=
  ⟨h1, h2, h3⟩

/-- Inv is preserved by every step. -/
theorem inv_step (s : GameState) (h : Inv s) : Inv (step s) := by
  obtain ⟨h1, h2, h3⟩ := h
  obtain ⟨m, cur, tc, pile, d1, d2⟩ := s
  cases m with
  | over w => exact inv_intro _ h1 h2 h3
  | check =>
      cases he1 : d1.isEmpty with
      | true =>
          refine inv_intro _ (fun hc => ?_) (fun hc => ?_) (fun _ _ _ _ hc => ?_) <;>
            simp [step, he1] at hc
      | false =>
          cases he2 : d2.isEmpty with
          | true =>
              refine inv_intro _ (fun hc => ?_) (fun hc => ?_) (fun _ _ _ _ hc => ?_) <;>
                simp [step, he1, he2] at hc
          | false =>
              have e1 : d1 ≠ [] := List.isEmpty_eq_false.mp he1
              have e2 : d2 ≠ [] := List.isEmpty_eq_false.mp he2
              refine inv_intro _ (fun _ => ?_) (fun hc => ?_) (fun _ _ _ _ hc => ?_)
              · simpa [step, he1, he2] using ⟨e1, e2⟩
              · simp [step, he1, he2] at hc
              · simp [step, he1, he2] at hc
  | turn =>
      obtain ⟨hd1, hd2⟩ := h1 rfl
      cases cur with
      | one =>
          cases d1 with
          | nil => exact absurd rfl hd1
          | cons c rest =>
              cases hp : c.rank.penalty_value with
              | some mq =>
                  refine inv_intro _ (fun hc => ?_) (fun hc => ?_) (fun _ _ _ _ _ => ?_)
                  · simp [step, GameState.deck, GameState.setDeck, hp] at hc
                  · simp [step, GameState.deck, GameState.setDeck, hp] at hc
                  · simp [step, GameState.deck, GameState.setDeck, hp]
              | none =>
                  refine inv_intro _ (fun hc => ?_) (fun _ => ?_) (fun _ _ _ _ hc => ?_)
                  · simp [step, GameState.deck, GameState.setDeck, hp] at hc
                  · simp [step, GameState.deck, GameState.setDeck, hp, hd2]
                  · simp [step, GameState.deck, GameState.setDeck, hp] at hc
      | two =>
          cases d2 with
          | nil => exact absurd rfl hd2
          | cons c rest =>
              cases hp : c.rank.penalty_value with
              | some mq =>
                  refine inv_intro _ (fun hc => ?_) (fun hc => ?_) (fun _ _ _ _ _ => ?_)
                  · simp [step, GameState.deck, GameState.setDeck, hp] at hc
                  · simp [step, GameState.deck, GameState.setDeck, hp] at hc
                  · simp [step, GameState.deck, GameState.setDeck, hp]
              | none =>
                  refine inv_intro _ (fun hc => ?_) (fun _ => ?_) (fun _ _ _ _ hc => ?_)
                  · simp [step, GameState.deck, GameState.setDeck, hp] at hc
                  · simp [step, GameState.deck, GameState.setDeck, hp, hd1]
                  · simp [step, GameState.deck, GameState.setDeck, hp] at hc
  | penalty payer req init paid =>
      have hpile : pile ≠ [] := h3 payer req init paid rfl
      by_cases hlt : paid < req
      · cases payer with
        | one =>
            cases d1 with
            | nil =>
                refine inv_intro _ (fun hc => ?_) (fun hc => ?_) (fun _ _ _ _ hc => ?_) <;>
                  simp [step, GameState.deck, hlt] at hc
            | cons c rest =>
                cases hp : c.rank.penalty_value <;>
                · refine inv_intro _ (fun hc => ?_) (fun hc => ?_) (fun _ _ _ _ _ => ?_)
                  · simp [step, GameState.deck, GameState.setDeck, hlt, hp] at hc
                  · simp [step, GameState.deck, GameState.setDeck, hlt, hp] at hc
                  · simp [step, GameState.deck, GameState.setDeck, hlt, hp]
        | two =>
            cases d2 with
            | nil =>
                refine inv_intro _ (fun hc => ?_) (fun hc => ?_) (fun _ _ _ _ hc => ?_) <;>
                  simp [step, GameState.deck, hlt] at hc
            | cons c rest =>
                cases hp : c.rank.penalty_value <;>
                · refine inv_intro _ (fun hc => ?_) (fun hc => ?_) (fun _ _ _ _ _ => ?_)
                  · simp [step, GameState.deck, GameState.setDeck, hlt, hp] at hc
                  · simp [step, GameState.deck, GameState.setDeck, hlt, hp] at hc
                  · simp [step, GameState.deck, GameState.setDeck, hlt, hp]
      · by_cases heq : paid = req
        · cases init with
          | one =>
              refine inv_intro _ (fun hc => ?_) (fun _ => ?_) (fun _ _ _ _ hc => ?_)
              · simp [step, GameState.deck, GameState.setDeck, hlt, heq] at hc
              · simp [step, GameState.deck, GameState.setDeck, hlt, heq, hpile]
              · simp [step, GameState.deck, GameState.setDeck, hlt, heq] at hc
          | two =>
              refine inv_intro _ (fun hc => ?_) (fun _ => ?_) (fun _ _ _ _ hc => ?_)
              · simp [step, GameState.deck, GameState.setDeck, hlt, heq] at hc
              · simp [step, GameState.deck, GameState.setDeck, hlt, heq, hpile]
              · simp [step, GameState.deck, GameState.setDeck, hlt, heq] at hc
        · refine inv_intro _ (fun hc => ?_) (fun hc => ?_) (fun _ _ _ _ _ => ?_)
          · simp [step, hlt, heq] at hc
          · simp [step, hlt, heq] at hc
          · simp [step, hlt, heq, hpile]

/-- Inv holds at the 26/26 deal and hence at every reachable state. -/
theorem inv_reachable (shuffled : List Card) (hlen : shuffled.length = 52)
    (s : GameState) (hs : Reachable (initState shuffled) s) : Inv s := by
  obtain ⟨n, rfl⟩ := hs
  induction n with
  | zero =>
      show Inv (initState shuffled)
      refine inv_intro _ (fun _ => ⟨?_, ?_⟩) (fun hc => ?_) (fun _ _ _ _ hc => ?_)
      · apply List.ne_nil_of_length_pos
        simp [initState, List.length_take, hlen]
      · apply List.ne_nil_of_length_pos
        simp [initState, List.length_drop, hlen]
      · simp [initState] at hc
      · simp [initState] at hc
  | succ n ih =>
      rw [Function.iterate_succ_apply']
      exact inv_step _ ih

/-- Running a block of payments: if the payer's deck starts with enough
consecutive non-penalty cards to finish the required count, those cards are
played one by one and then the whole pile is collected by the initiator.
The argument is by induction on the block of payment cards. -/
theorem payment_run (pay : List Card) :
    ∀ (s : GameState) (payer init : Player) (req paid : Nat) (rest : List Card),
    s.mode = .penalty payer req init paid →
    payer ≠ init →
    s.deck payer = pay ++ rest →
    paid + pay.length = req →
    (∀ c ∈ pay, c.rank.penalty_value = none) →
    (step^[pay.length + 1] s).pile = [] ∧
    (step^[pay.length + 1] s).deck init = s.deck init ++ s.pile ++ pay ∧
    (step^[pay.length + 1] s).deck payer = rest ∧
    (step^[pay.length + 1] s).mode = .check := by
  induction pay with
  | nil =>
      intro s payer init req paid rest hm hne hd hcount hnp
      have hpd : paid = req := by simpa using hcount
      subst hpd
      have hstep := step_collect s payer init paid hm
      have hone : step^[([] : List Card).length + 1] s = step s := by
        simp
      rw [hone, hstep]
      refine ⟨rfl, ?_, ?_, rfl⟩
      · rw [deck_update_pm, deck_setDeck_self]
        simp
      · rw [deck_update_pm, deck_setDeck_ne _ _ _ _ hne]
        simpa using hd
  | cons c pay ih =>
      intro s payer init req paid rest hm hne hd hcount hnp
      have hp : c.rank.penalty_value = none := hnp c (List.mem_cons_self c pay)
      have hlt : paid < req := by
        simp only [List.length_cons] at hcount
        omega
      have hstep := step_pay s payer init req paid c (pay ++ rest) hm hlt
        (by simpa using hd) hp
      have hiter : step^[(c :: pay).length + 1] s = step^[pay.length + 1] (step s) := by
        rw [List.length_cons]
        exact Function.iterate_succ_apply step (pay.length + 1) s
      rw [hiter, hstep]
      obtain ⟨r1, r2, r3, r4⟩ :=
        ih ({ s.setDeck payer (pay ++ rest) with
              pile := s.pile ++ [c],
              mode := .penalty payer req init (paid + 1) })
          payer init req (paid + 1) rest rfl hne
          (by rw [deck_update_pm, deck_setDeck_self])
          (by simp only [List.length_cons] at hcount; omega)
          (fun x hx => hnp x (List.mem_cons_of_mem c hx))
      refine ⟨r1, ?_, r3, r4⟩
      rw [r2, deck_update_pm, deck_setDeck_ne _ _ _ _ (Ne.symm hne)]
      simp [List.append_assoc]

/-! Claim theorems. -/

/-- C1: card conservation.  In every state reachable from the 26/26 deal of
any arrangement of the 52 standard cards, the cards held across Player One's
deck, Player Two's deck and the shared pile are exactly the 52 distinct
cards of create_deck (a permutation of it, so no card is lost or
duplicated), and the three sizes sum to 52. -/
theorem conservation (shuffled : List Card) (hperm : shuffled.Perm create_deck)
    (s : GameState) (hs : Reachable (initState shuffled) s) :
    (s.deck1 ++ s.deck2 ++ s.pile).Perm create_deck ∧
    s.deck1.length + s.deck2.length + s.pile.length = 52 := by
  obtain ⟨n, rfl⟩ := hs
  have key : ∀ k : Nat,
      cards (step^[k] (initState shuffled)) = (create_deck : Multiset Card) := by
    intro k
    induction k with
    | zero =>
        show cards (initState shuffled) = _
        show ((shuffled.take (shuffled.length / 2) : List Card) : Multiset Card) +
          ↑(shuffled.drop (shuffled.length / 2)) + ↑([] : List Card) = _
        rw [Multiset.coe_nil, add_zero, Multiset.coe_add, List.take_append_drop]
        exact Multiset.coe_eq_coe.mpr hperm
    | succ k ih =>
        rw [Function.iterate_succ_apply', cards_step]
        exact ih
  have hk := key n
  simp only [cards] at hk
  rw [Multiset.coe_add, Multiset.coe_add] at hk
  have hperm2 := Multiset.coe_eq_coe.mp hk
  refine ⟨hperm2, ?_⟩
  have h52 : create_deck.length = 52 := rfl
  have hlen := hperm2.length_eq
  rw [h52] at hlen
  simp only [List.length_append] at hlen
  omega

/-- Witness for C1: the deal of the unshuffled deck itself. -/
theorem conservation_witness :
    ((initState create_deck).deck1 ++ (initState create_deck).deck2 ++
      (initState create_deck).pile).Perm create_deck ∧
    (initState create_deck).deck1.length + (initState create_deck).deck2.length +
      (initState create_deck).pile.length = 52 :=
  conservation create_deck (List.Perm.refl create_deck) (initState create_deck) ⟨0, rfl⟩

/-- C3 counterexample: the shared pile is NOT empty between exchanges.  In
the game started from the unshuffled deck, Player One's first play (the Two
of Spades, no penalty) stays on the shared pile, so the next ordinary turn
starts with a non-empty pile. -/
theorem pile_nonempty_between_exchanges :
    (step^[2] (initState create_deck)).mode = Mode.turn ∧
    (step^[2] (initState create_deck)).pile ≠ [] := by
  decide

/-- C3 as amended: the pile is drained to empty exactly when a completed
penalty payment awards it to the collector; an ordinary non-penalty play
also appends its card to the shared pile (which is why the pile is not
empty between exchanges in general). -/
theorem pile_lifecycle :
    (∀ (s : GameState) (payer init : Player) (req : Nat),
        s.mode = .penalty payer req init req →
        (step s).pile = [] ∧ (step s).deck init = s.deck init ++ s.pile) ∧
    (∀ (s : GameState) (c : Card) (rest : List Card),
        s.mode = .turn → s.deck s.current = c :: rest →
        c.rank.penalty_value = none →
        (step s).pile = s.pile ++ [c] ∧ (step s).mode = .check) := by
  constructor
  · intro s payer init req hm
    rw [step_collect s payer init req hm]
    refine ⟨rfl, ?_⟩
    rw [deck_update_pm, deck_setDeck_self]
  · intro s c rest hm hd hp
    rw [step_ordinary s c rest hm hd hp]
    exact ⟨rfl, rfl⟩

/-- Witness for the amended C3: a concrete completed payment. -/
theorem pile_lifecycle_witness :
    (step sDrain).pile = [] ∧
    (step sDrain).deck .two = sDrain.deck .two ++ sDrain.pile :=
  pile_lifecycle.1 sDrain .one .two 1 rfl

/-- C4: escalation chaining.  Whenever the payer plays a card whose rank
carries a penalty value mq during a payment, the roles flip: the player who
just played becomes the new initiator, the other player the new payer, the
required count becomes mq and the payment count resets to 0; the card moves
onto the pile.  The statement holds for every state of the engine, so the
flip can repeat arbitrarily often within one penalty phase. -/
theorem escalation_flip (s : GameState) (payer init : Player) (req paid : Nat)
    (c : Card) (rest : List Card) (mq : Nat)
    (hm : s.mode = .penalty payer req init paid) (hlt : paid < req)
    (hd : s.deck payer = c :: rest) (hp : c.rank.penalty_value = some mq) :
    (step s).mode = .penalty payer.other mq payer 0 ∧
    (step s).deck payer = rest ∧
    (step s).pile = s.pile ++ [c] := by
  rw [step_escalate s payer init req paid c rest mq hm hlt hd hp]
  refine ⟨rfl, ?_, rfl⟩
  rw [deck_update_pm, deck_setDeck_self]

/-- Witness for C4: Player One escalates with a Jack while owing two cards
to Player Two. -/
theorem escalation_flip_witness :
    (step sEsc).mode = .penalty Player.one.other 1 .one 0 ∧
    (step sEsc).deck .one = [⟨.two, .heart⟩] ∧
    (step sEsc).pile = sEsc.pile ++ [⟨.jack, .heart⟩] :=
  escalation_flip sEsc .one .two 2 0 ⟨.jack, .heart⟩ [⟨.two, .heart⟩] 1 rfl
    (by decide) rfl rfl

/-- C5: deck exhaustion during payment is fatal.  When the player required
to play the next payment card has an empty deck, the engine ends the whole
game with the other player as winner, and no card moves: both decks and the
pile are unchanged, whatever the pile holds and however much was paid. -/
theorem depletion_fatal (s : GameState) (payer init : Player) (req paid : Nat)
    (hm : s.mode = .penalty payer req init paid) (hlt : paid < req)
    (hempty : s.deck payer = []) :
    (step s).mode = .over payer.other ∧ (step s).deck1 = s.deck1 ∧
    (step s).deck2 = s.deck2 ∧ (step s).pile = s.pile := by
  rw [step_deplete s payer init req paid hm hlt hempty]
  exact ⟨rfl, rfl, rfl, rfl⟩

/-- Witness for C5: Player One must pay but has no cards; Player Two wins. -/
theorem depletion_fatal_witness :
    (step sDep).mode = .over Player.one.other ∧ (step sDep).deck1 = sDep.deck1 ∧
    (step sDep).deck2 = sDep.deck2 ∧ (step sDep).pile = sDep.pile :=
  depletion_fatal sDep .one .two 3 1 rfl (by decide) rfl

/-- C6 counterexample: the pile collected after an escalation-free penalty
phase is NOT in general just the triggering card plus the payment cards.
In the run from shuffleC6 (a permutation of the 52 cards), Player One first
plays the Two of Spades as an ordinary card; Player Two then triggers a
penalty of 1 with the Jack of Spades and Player One pays the Three of
Spades.  At the moment the payment is complete the pile holds three cards —
the earlier ordinary card as well — not 1 + 1 = 2. -/
theorem collection_counterexample :
    shuffleC6.Perm create_deck ∧
    (step^[4] (initState shuffleC6)).mode = Mode.penalty .one 1 .two 1 ∧
    (step^[4] (initState shuffleC6)).pile =
      [⟨.two, .spade⟩, ⟨.jack, .spade⟩, ⟨.three, .spade⟩] ∧
    (step^[4] (initState shuffleC6)).pile.length ≠ 1 + 1 := by
  refine ⟨by decide, by decide, by decide, by decide⟩

/-- C6 as amended: in a penalty phase of magnitude req with no escalation
(the payer's next req cards all carry no penalty value), after the req
payments and the collection step the whole pile — whatever it already
contained on entry, plus the req payment cards in play order — is appended
to the back of the initiator's deck, and the pile is empty afterward. -/
theorem collection (s : GameState) (payer init : Player) (req : Nat)
    (pay rest : List Card)
    (hm : s.mode = .penalty payer req init 0)
    (hne : payer ≠ init)
    (hd : s.deck payer = pay ++ rest)
    (hlen : pay.length = req)
    (hnp : ∀ c ∈ pay, c.rank.penalty_value = none) :
    (step^[req + 1] s).pile = [] ∧
    (step^[req + 1] s).deck init = s.deck init ++ s.pile ++ pay ∧
    (step^[req + 1] s).deck payer = rest ∧
    (step^[req + 1] s).mode = .check := by
  subst hlen
  exact payment_run pay s payer init pay.length 0 rest hm hne hd (by omega) hnp

/-- Witness for the amended C6: Player One pays two non-penalty cards and
initiator Player Two collects the three-card pile. -/
theorem collection_witness :
    (step^[3] sCol).pile = [] ∧
    (step^[3] sCol).deck .two =
      sCol.deck .two ++ sCol.pile ++ [⟨.two, .heart⟩, ⟨.three, .heart⟩] ∧
    (step^[3] sCol).deck .one = [⟨.four, .heart⟩] ∧
    (step^[3] sCol).mode = .check :=
  collection sCol .one .two 2 [⟨.two, .heart⟩, ⟨.three, .heart⟩] [⟨.four, .heart⟩]
    rfl (by decide) rfl rfl (by decide)

/-- C7: frame of a penalty exchange.  Any run of steps that stays inside the
penalty engine leaves current_player and turn_count exactly as they were, so
a full penalty exchange (of any length) contributes 0 to turn_count and
does not switch the player; entering the engine from the main loop also
leaves both unchanged, while an ordinary non-penalty play switches
current_player and increments turn_count by one. -/
theorem penalty_frame :
    (∀ (s : GameState) (n : Nat),
        (∀ i, i < n → ((step^[i] s).mode).isPenalty = true) →
        (step^[n] s).current = s.current ∧ (step^[n] s).turnCount = s.turnCount) ∧
    (∀ (s : GameState) (c : Card) (rest : List Card) (mq : Nat),
        s.mode = .turn → s.deck s.current = c :: rest →
        c.rank.penalty_value = some mq →
        (step s).current = s.current ∧ (step s).turnCount = s.turnCount) ∧
    (∀ (s : GameState) (c : Card) (rest : List Card),
        s.mode = .turn → s.deck s.current = c :: rest →
        c.rank.penalty_value = none →
        (step s).current = s.current.other ∧ (step s).turnCount = s.turnCount + 1) := by
  refine ⟨?_, ?_, ?_⟩
  · intro s n hpen
    induction n with
    | zero => exact ⟨rfl, rfl⟩
    | succ n ih =>
        obtain ⟨hc, ht⟩ := ih (fun i hi => hpen i (Nat.lt_succ_of_lt hi))
        obtain ⟨hc2, ht2⟩ := step_frame_penalty (step^[n] s) (hpen n (Nat.lt_succ_self n))
        rw [Function.iterate_succ_apply']
        exact ⟨hc2.trans hc, ht2.trans ht⟩
  · intro s c rest mq hm hd hp
    rw [step_trigger s c rest mq hm hd hp]
    exact ⟨setDeck_current s s.current rest, setDeck_turnCount s s.current rest⟩
  · intro s c rest hm hd hp
    rw [step_ordinary s c rest hm hd hp]
    exact ⟨rfl, rfl⟩

/-- Witness for C7: one engine step of a concrete mid-payment state. -/
theorem penalty_frame_witness :
    (step^[1] sEsc).current = sEsc.current ∧
    (step^[1] sEsc).turnCount = sEsc.turnCount :=
  penalty_frame.1 sEsc 1 (by decide)

/-- C8: the penalty mapping is the total function Jack 1, Queen 2, King 3,
Ace 4, and none on every rank from Two through Ten; the thirteen equations
cover every constructor of Rank. -/
theorem penalty_value_total :
    Rank.penalty_value .jack = some 1 ∧ Rank.penalty_value .queen = some 2 ∧
    Rank.penalty_value .king = some 3 ∧ Rank.penalty_value .ace = some 4 ∧
    Rank.penalty_value .two = none ∧ Rank.penalty_value .three = none ∧
    Rank.penalty_value .four = none ∧ Rank.penalty_value .five = none ∧
    Rank.penalty_value .six = none ∧ Rank.penalty_value .seven = none ∧
    Rank.penalty_value .eight = none ∧ Rank.penalty_value .nine = none ∧
    Rank.penalty_value .ten = none := by
  decide

/-- C9: simultaneous deck exhaustion is unreachable.  From a 52-card deal,
in every reachable state: at the top of the main loop both decks are
non-empty (so the top-of-loop empty-deck break never fires), and at the
end-of-turn emptiness check at most one deck is empty (so the tie-break
declaring Player Two the winner when both decks are empty never decides a
game). -/
theorem no_simultaneous_exhaustion (shuffled : List Card)
    (hlen : shuffled.length = 52)
    (s : GameState) (hs : Reachable (initState shuffled) s) :
    (s.mode = .turn → s.deck1 ≠ [] ∧ s.deck2 ≠ []) ∧
    (s.mode = .check → ¬(s.deck1 = [] ∧ s.deck2 = [])) := by
  have h := inv_reachable shuffled hlen s hs
  refine ⟨h.1, fun hc hboth => ?_⟩
  rcases h.2.1 hc with hne | hne
  · exact hne hboth.1
  · exact hne hboth.2

/-- Witness for C9: the initial state of the unshuffled deal. -/
theorem no_simultaneous_exhaustion_witness :
    ((initState create_deck).mode = .turn →
      (initState create_deck).deck1 ≠ [] ∧ (initState create_deck).deck2 ≠ []) ∧
    ((initState create_deck).mode = .check →
      ¬((initState create_deck).deck1 = [] ∧ (initState create_deck).deck2 = [])) :=
  no_simultaneous_exhaustion create_deck (by decide) (initState create_deck) ⟨0, rfl⟩

/-- C10: no panic on card draw.  The faithful embedding stepOpt, in which
each pop_front().unwrap() site can fail, never fails on any state whatever:
both unwrap sites sit behind an is_empty guard on the same deck, so the
panic branch is unreachable and stepOpt agrees with the total function
step everywhere. -/
theorem no_panic_on_draw (s : GameState) : stepOpt s = some (step s) := by
  obtain ⟨m, cur, tc, pile, d1, d2⟩ := s
  cases m with
  | over w => rfl
  | check =>
      simp only [stepOpt, step]
      split <;> rfl
  | turn =>
      cases cur with
      | one =>
          cases d1 with
          | nil => rfl
          | cons c rest =>
              cases hp : c.rank.penalty_value <;>
                simp [stepOpt, step, GameState.deck, GameState.setDeck, popFront, hp]
      | two =>
          cases d2 with
          | nil => rfl
          | cons c rest =>
              cases hp : c.rank.penalty_value <;>
                simp [stepOpt, step, GameState.deck, GameState.setDeck, popFront, hp]
  | penalty payer req init paid =>
      by_cases hlt : paid < req
      · cases payer with
        | one =>
            cases d1 with
            | nil => simp [stepOpt, step, GameState.deck, hlt]
            | cons c rest =>
                cases hp : c.rank.penalty_value <;>
                  simp [stepOpt, step, GameState.deck, GameState.setDeck, popFront, hlt, hp]
        | two =>
            cases d2 with
            | nil => simp [stepOpt, step, GameState.deck, hlt]
            | cons c rest =>
                cases hp : c.rank.penalty_value <;>
                  simp [stepOpt, step, GameState.deck, GameState.setDeck, popFront, hlt, hp]
      · by_cases heq : paid = req
        · simp [stepOpt, step, hlt, heq]
        · simp [stepOpt, step, hlt, heq]

end BMN
